import Mathlib

/-!
Verification of the billing-cycle normalization and due-date projection
logic of a subscription/bill tracker.

The date model is a shallow embedding of the host date library used by the
source (day-granular, proleptic Gregorian): a civil date is a year/month/day
triple, `Date.toDayNumber` is its timestamp measured in whole days, and the
month/day setters normalize overflow exactly as `Date.setMonth` /
`Date.setDate` do (day overflow rolls into the following months).

Monetary amounts are modelled as rationals; the aggregation code performs
only field arithmetic (`+`, `/`, `*`) on them.
-/

namespace BillTrack

/-- Gregorian leap-year rule used by the host date library. -/
def isLeap (y : Int) : Bool :=
  y % 4 == 0 && (y % 100 != 0 || y % 400 == 0)

/-- Length of month `m` (1..12) of year `y`. -/
def daysInMonth (y m : Int) : Int :=
  if m = 2 then (if isLeap y then 29 else 28)
  else if m = 4 ∨ m = 6 ∨ m = 9 ∨ m = 11 then 30
  else 31

/-- Days in year `y` strictly before the first of month `m` (1..12). -/
def daysBeforeMonth (y m : Int) : Int :=
  let L : Int := if isLeap y then 1 else 0
  if m = 1 then 0
  else if m = 2 then 31
  else if m = 3 then 59 + L
  else if m = 4 then 90 + L
  else if m = 5 then 120 + L
  else if m = 6 then 151 + L
  else if m = 7 then 181 + L
  else if m = 8 then 212 + L
  else if m = 9 then 243 + L
  else if m = 10 then 273 + L
  else if m = 11 then 304 + L
  else 334 + L

/-- Days in all years of `[0, y)` (negative for years before year 0),
counting a leap day for every year divisible by 4 but not by 100, or by
400. -/
def daysBeforeYear (y : Int) : Int :=
  365 * y + (y + 3) / 4 - (y + 99) / 100 + (y + 399) / 400

/-- Day number ("timestamp in days") of the civil triple `(y, m, d)`.
Linear in `d`, so it also gives the meaning of a day-overflowed triple. -/
def toDays (y m d : Int) : Int :=
  daysBeforeYear y + daysBeforeMonth y m + d - 1

/-- A civil date as held by a host `Date` value normalized to midnight. -/
structure Date where
  y : Int
  m : Int
  d : Int
deriving DecidableEq, Repr

/-- The timestamp of a midnight `Date`, measured in days. -/
def Date.toDayNumber (dt : Date) : Int :=
  toDays dt.y dt.m dt.d

/-- A triple actually denoting a calendar date: month in 1..12 and day in
range for that month. Host `Date` values are always in this form. -/
def Date.Valid (dt : Date) : Prop :=
  1 ≤ dt.m ∧ dt.m ≤ 12 ∧ 1 ≤ dt.d ∧ dt.d ≤ daysInMonth dt.y dt.m

instance (dt : Date) : Decidable dt.Valid := by
  unfold Date.Valid; infer_instance

theorem daysInMonth_bounds (y m : Int) :
    28 ≤ daysInMonth y m ∧ daysInMonth y m ≤ 31 := by
  unfold daysInMonth
  split_ifs <;> omega

/-- Worker for day-overflow normalization; the iteration budget only has to
cover the number of month boundaries crossed, and every crossing consumes
at least 28 days of overflow, so a budget of `d.toNat` always suffices. -/
def normDaysAux : Nat → Int → Int → Int → Date
  | 0, y, m, d => ⟨y, m, d⟩
  | Nat.succ fuel, y, m, d =>
    if daysInMonth y m < d then
      normDaysAux fuel (if m = 12 then y + 1 else y) (if m = 12 then 1 else m + 1)
        (d - daysInMonth y m)
    else ⟨y, m, d⟩

/-- Day-overflow normalization, as performed internally by the host date
library when a day component exceeds the month length. -/
def normDays (y m d : Int) : Date :=
  normDaysAux d.toNat y m d

theorem daysBeforeYear_succ (y : Int) :
    daysBeforeYear (y + 1) = daysBeforeYear y + (if isLeap y then 366 else 365) := by
  unfold daysBeforeYear isLeap
  have h4 : (y + 1 + 3) / 4 = (y + 3) / 4 + (if (4:Int) ∣ y then 1 else 0) := by
    split_ifs <;> omega
  have h100 : (y + 1 + 99) / 100 = (y + 99) / 100 + (if (100:Int) ∣ y then 1 else 0) := by
    split_ifs <;> omega
  have h400 : (y + 1 + 399) / 400 = (y + 399) / 400 + (if (400:Int) ∣ y then 1 else 0) := by
    split_ifs <;> omega
  rw [h4, h100, h400]
  simp only [beq_iff_eq, bne_iff_ne, Bool.and_eq_true, Bool.or_eq_true,
    decide_eq_true_eq, ne_eq]
  split_ifs <;> omega

theorem daysBeforeMonth_succ (y m : Int) (h1 : 1 ≤ m) (h2 : m ≤ 11) :
    daysBeforeMonth y (m + 1) = daysBeforeMonth y m + daysInMonth y m := by
  rcases hL : isLeap y <;>
    interval_cases m <;>
      simp [daysBeforeMonth, daysInMonth, hL]

/-- Rolling a day overflow into the next month preserves the day number. -/
theorem toDays_nextMonth (y m d : Int) (h1 : 1 ≤ m) (h2 : m ≤ 12) :
    toDays (if m = 12 then y + 1 else y) (if m = 12 then 1 else m + 1)
      (d - daysInMonth y m) = toDays y m d := by
  by_cases h : m = 12
  · subst h
    rw [if_pos rfl, if_pos rfl]
    unfold toDays
    rw [daysBeforeYear_succ]
    have hm : daysBeforeMonth y 12 = 334 + (if isLeap y then (1:Int) else 0) := by
      unfold daysBeforeMonth; norm_num
    have h1 : daysBeforeMonth (y + 1) 1 = 0 := by
      unfold daysBeforeMonth; norm_num
    have hd : daysInMonth y 12 = 31 := by
      unfold daysInMonth; norm_num
    rw [hm, h1, hd]
    split_ifs <;> omega
  · rw [if_neg h, if_neg h]
    unfold toDays
    rw [daysBeforeMonth_succ y m h1 (by omega)]
    omega

/-- `normDaysAux` with enough budget preserves the day number, and yields a
valid date whenever the starting day component is at least 1. -/
theorem normDaysAux_spec : ∀ (n : Nat) (y m d : Int), d.toNat ≤ n → 1 ≤ m → m ≤ 12 →
    (normDaysAux n y m d).toDayNumber = toDays y m d ∧
      (1 ≤ d → (normDaysAux n y m d).Valid) := by
  intro n
  induction n with
  | zero =>
    intro y m d hle h1 h2
    have hb := daysInMonth_bounds y m
    refine ⟨rfl, fun hd => ⟨h1, h2, hd, ?_⟩⟩
    show d ≤ daysInMonth y m
    omega
  | succ n ih =>
    intro y m d hle h1 h2
    have hb := daysInMonth_bounds y m
    rw [normDaysAux]
    by_cases h : daysInMonth y m < d
    · rw [if_pos h]
      have h1' : 1 ≤ (if m = 12 then 1 else m + 1) := by split_ifs <;> omega
      have h2' : (if m = 12 then 1 else m + 1) ≤ 12 := by split_ifs <;> omega
      have hle' : (d - daysInMonth y m).toNat ≤ n := by omega
      obtain ⟨ha, hv⟩ := ih (if m = 12 then y + 1 else y) (if m = 12 then 1 else m + 1)
        (d - daysInMonth y m) hle' h1' h2'
      refine ⟨?_, fun _ => hv (by omega)⟩
      rw [ha, toDays_nextMonth y m d h1 h2]
    · rw [if_neg h]
      refine ⟨rfl, fun hd => ⟨h1, h2, hd, ?_⟩⟩
      show d ≤ daysInMonth y m
      omega

theorem normDays_toDayNumber (y m d : Int) (h1 : 1 ≤ m) (h2 : m ≤ 12) :
    (normDays y m d).toDayNumber = toDays y m d :=
  (normDaysAux_spec d.toNat y m d le_rfl h1 h2).1

theorem normDays_valid (y m d : Int) (h1 : 1 ≤ m) (h2 : m ≤ 12) (h3 : 1 ≤ d) :
    (normDays y m d).Valid :=
  (normDaysAux_spec d.toNat y m d le_rfl h1 h2).2 h3

/-- `Date.setMonth (getMonth + k)` of the host library: the month index is
renormalized into a year/month pair and day overflow (a day-of-month beyond
the target month's length) rolls forward. -/
def addMonths (dt : Date) (k : Int) : Date :=
  let t := dt.m - 1 + k
  normDays (dt.y + t / 12) (t % 12 + 1) dt.d

/-- `Date.setFullYear (getFullYear + k)` of the host library (Feb 29 rolls
to Mar 1 when the target year is not leap). -/
def addYears (dt : Date) (k : Int) : Date :=
  normDays (dt.y + k) dt.m dt.d

/-- `Date.setDate (getDate + k)` of the host library. -/
def addDays (dt : Date) (k : Int) : Date :=
  normDays dt.y dt.m (dt.d + k)

/-- Day number of the first day of absolute month `t` (month `t % 12 + 1`
of year `t / 12`). -/
def monthStart (t : Int) : Int :=
  daysBeforeYear (t / 12) + daysBeforeMonth (t / 12) (t % 12 + 1)

theorem monthStart_succ (t : Int) :
    monthStart (t + 1) = monthStart t + daysInMonth (t / 12) (t % 12 + 1) := by
  have hr : 0 ≤ t % 12 ∧ t % 12 < 12 := ⟨Int.emod_nonneg t (by norm_num), Int.emod_lt_of_pos t (by norm_num)⟩
  by_cases h : t % 12 = 11
  · have hq : (t + 1) / 12 = t / 12 + 1 := by omega
    have hm : (t + 1) % 12 = 0 := by omega
    unfold monthStart
    rw [hq, hm, h]
    rw [daysBeforeYear_succ]
    have h1 : daysBeforeMonth (t / 12 + 1) (0 + 1) = 0 := by
      unfold daysBeforeMonth; norm_num
    have h12 : daysBeforeMonth (t / 12) (11 + 1) =
        334 + (if isLeap (t / 12) then (1:Int) else 0) := by
      unfold daysBeforeMonth; norm_num
    have hd : daysInMonth (t / 12) (11 + 1) = 31 := by
      unfold daysInMonth; norm_num
    rw [h1, h12, hd]
    split_ifs <;> omega
  · have hq : (t + 1) / 12 = t / 12 := by omega
    have hm : (t + 1) % 12 = t % 12 + 1 := by omega
    unfold monthStart
    rw [hq, hm]
    have := daysBeforeMonth_succ (t / 12) (t % 12 + 1) (by omega) (by omega)
    omega

theorem monthStart_add_le (t : Int) : ∀ k : Nat,
    monthStart t + 28 * k ≤ monthStart (t + k) := by
  intro k
  induction k with
  | zero => simp
  | succ k ih =>
    have hs := monthStart_succ (t + k)
    have hb := daysInMonth_bounds ((t + k) / 12) ((t + k) % 12 + 1)
    push_cast
    push_cast at ih
    have : (t + (k + 1) : Int) = (t + k) + 1 := by ring
    rw [this]
    omega

theorem addMonths_spec (dt : Date) (hv : dt.Valid) (k : Int) (hk1 : 1 ≤ k)
    (hk2 : k ≤ 12) :
    dt.toDayNumber < (addMonths dt k).toDayNumber ∧ (addMonths dt k).Valid := by
  obtain ⟨hm1, hm2, hd1, hd2⟩ := hv
  unfold addMonths
  have ht1 : 0 ≤ dt.m - 1 + k := by omega
  have hm1' : 1 ≤ (dt.m - 1 + k) % 12 + 1 := by
    have := Int.emod_nonneg (dt.m - 1 + k) (show (12:Int) ≠ 0 by norm_num)
    omega
  have hm2' : (dt.m - 1 + k) % 12 + 1 ≤ 12 := by
    have := Int.emod_lt_of_pos (dt.m - 1 + k) (show (0:Int) < 12 by norm_num)
    omega
  constructor
  · rw [normDays_toDayNumber _ _ _ hm1' hm2']
    have key : ∀ s : Int, toDays (s / 12) (s % 12 + 1) dt.d = monthStart s + dt.d - 1 := by
      intro s
      unfold toDays monthStart
      ring
    have hrw : dt.y + (dt.m - 1 + k) / 12 = (12 * dt.y + (dt.m - 1 + k)) / 12 := by omega
    have hrw2 : (dt.m - 1 + k) % 12 = (12 * dt.y + (dt.m - 1 + k)) % 12 := by omega
    rw [hrw, hrw2, key]
    have hself : dt.toDayNumber = monthStart (12 * dt.y + (dt.m - 1)) + dt.d - 1 := by
      have hq : (12 * dt.y + (dt.m - 1)) / 12 = dt.y := by omega
      have hr : (12 * dt.y + (dt.m - 1)) % 12 = dt.m - 1 := by omega
      unfold Date.toDayNumber toDays monthStart
      rw [hq, hr]
      have : dt.m - 1 + 1 = dt.m := by ring
      rw [this]
    rw [hself]
    have hstep := monthStart_add_le (12 * dt.y + (dt.m - 1)) k.toNat
    have hcast : ((k.toNat : Int)) = k := Int.toNat_of_nonneg (by omega)
    rw [hcast] at hstep
    have : 12 * dt.y + (dt.m - 1) + k = 12 * dt.y + (dt.m - 1 + k) := by ring
    rw [this] at hstep
    omega
  · exact normDays_valid _ _ _ hm1' hm2' hd1

theorem daysBeforeMonth_year_bound (y1 y2 m : Int) (hm1 : 1 ≤ m) (hm2 : m ≤ 12) :
    daysBeforeMonth y1 m ≤ daysBeforeMonth y2 m + 1 := by
  interval_cases m <;> rcases h1 : isLeap y1 <;> rcases h2 : isLeap y2 <;>
    simp [daysBeforeMonth, h1, h2]

theorem addYears_one_spec (dt : Date) (hv : dt.Valid) :
    dt.toDayNumber < (addYears dt 1).toDayNumber ∧ (addYears dt 1).Valid := by
  obtain ⟨hm1, hm2, hd1, hd2⟩ := hv
  unfold addYears
  refine ⟨?_, normDays_valid _ _ _ hm1 hm2 hd1⟩
  rw [normDays_toDayNumber _ _ _ hm1 hm2]
  unfold Date.toDayNumber toDays
  rw [daysBeforeYear_succ]
  have hb := daysBeforeMonth_year_bound dt.y (dt.y + 1) dt.m hm1 hm2
  split_ifs <;> omega

theorem addDays_spec (dt : Date) (hv : dt.Valid) (k : Int) (hk : 1 ≤ k) :
    (addDays dt k).toDayNumber = dt.toDayNumber + k ∧ (addDays dt k).Valid := by
  obtain ⟨hm1, hm2, hd1, hd2⟩ := hv
  unfold addDays
  refine ⟨?_, normDays_valid _ _ _ hm1 hm2 (by omega)⟩
  rw [normDays_toDayNumber _ _ _ hm1 hm2]
  unfold Date.toDayNumber toDays
  ring

/-- One iteration of the `switch (sub.billingCycle)` cursor update shared by
`getNextDueDate` and `isDueSoon` in `SubscriptionList`, including the
`default` branch that treats an unrecognized cycle as monthly. -/
def advanceCycle (cycle : String) (dt : Date) : Date :=
  if cycle = "monthly" then addMonths dt 1
  else if cycle = "yearly" then addYears dt 1
  else if cycle = "quarterly" then addMonths dt 3
  else if cycle = "half-yearly" then addMonths dt 6
  else if cycle = "every-28-days" then addDays dt 28
  else addMonths dt 1

/-- Every cursor update strictly advances the date and keeps it valid. -/
theorem advanceCycle_spec (cycle : String) (dt : Date) (hv : dt.Valid) :
    dt.toDayNumber < (advanceCycle cycle dt).toDayNumber ∧
      (advanceCycle cycle dt).Valid := by
  unfold advanceCycle
  split_ifs
  · exact addMonths_spec dt hv 1 (by norm_num) (by norm_num)
  · exact addYears_one_spec dt hv
  · exact addMonths_spec dt hv 3 (by norm_num) (by norm_num)
  · exact addMonths_spec dt hv 6 (by norm_num) (by norm_num)
  · have h := addDays_spec dt hv 28 (by norm_num)
    exact ⟨by omega, h.2⟩
  · exact addMonths_spec dt hv 1 (by norm_num) (by norm_num)

/-- The `while (next < today)` loop of `SubscriptionList`, written with an
explicit iteration budget (the loop in the source has none; sufficiency of
the budget is proved below). -/
def rollForward (cycle : String) (ref : Date) : Nat → Date → Date
  | 0, cur => cur
  | Nat.succ fuel, cur =>
    if cur.toDayNumber < ref.toDayNumber then
      rollForward cycle ref fuel (advanceCycle cycle cur)
    else cur

/-- Iteration budget that always suffices: the day distance from start to
reference. -/
def dueFuel (start ref : Date) : Nat :=
  (ref.toDayNumber - start.toDayNumber).toNat

/-- `getNextDueDate` of `SubscriptionList` (both dates already normalized
to midnight): return the start date if it is still in the future, else roll
the cursor forward cycle by cycle until it is no longer before the
reference date. -/
def getNextDueDate (start : Date) (cycle : String) (ref : Date) : Date :=
  if ref.toDayNumber < start.toDayNumber then start
  else rollForward cycle ref (dueFuel start ref) start

/-- `isDueSoon` of `SubscriptionList`: roll forward only when the start is
strictly before the reference, then test `0 ≤ diffDays ≤ 7` on the exact
day difference (both dates are midnight-normalized, so the source's
`Math.ceil` of the millisecond difference is that exact difference). -/
def isDueSoon (start : Date) (cycle : String) (ref : Date) : Bool :=
  let next :=
    if start.toDayNumber < ref.toDayNumber then
      rollForward cycle ref (dueFuel start ref) start
    else start
  let diffDays := next.toDayNumber - ref.toDayNumber
  decide (diffDays ≤ 7) && decide (0 ≤ diffDays)

theorem rollForward_of_not_lt (cycle : String) (ref : Date) (fuel : Nat)
    (cur : Date) (h : ¬ cur.toDayNumber < ref.toDayNumber) :
    rollForward cycle ref fuel cur = cur := by
  cases fuel with
  | zero => rfl
  | succ fuel => simp [rollForward, h]

/-- With a budget covering the remaining day distance, the loop result is
valid and no longer before the reference date. -/
theorem rollForward_ge (cycle : String) (ref : Date) : ∀ (fuel : Nat) (cur : Date),
    cur.Valid → ref.toDayNumber ≤ cur.toDayNumber + fuel →
    ref.toDayNumber ≤ (rollForward cycle ref fuel cur).toDayNumber ∧
      (rollForward cycle ref fuel cur).Valid := by
  intro fuel
  induction fuel with
  | zero =>
    intro cur hv h
    exact ⟨by simpa [rollForward] using h, by simpa [rollForward] using hv⟩
  | succ fuel ih =>
    intro cur hv h
    rw [rollForward]
    by_cases hlt : cur.toDayNumber < ref.toDayNumber
    · rw [if_pos hlt]
      have hadv := advanceCycle_spec cycle cur hv
      exact ih (advanceCycle cycle cur) hadv.2 (by push_cast at h ⊢; omega)
    · rw [if_neg hlt]
      exact ⟨by omega, hv⟩

/-- Extra budget beyond a sufficient one never changes the loop result:
the source's unbounded loop terminates at the same cursor. -/
theorem rollForward_stable (cycle : String) (ref : Date) : ∀ (fuel : Nat) (cur : Date),
    cur.Valid → ref.toDayNumber ≤ cur.toDayNumber + fuel →
    ∀ extra : Nat, rollForward cycle ref (fuel + extra) cur = rollForward cycle ref fuel cur := by
  intro fuel
  induction fuel with
  | zero =>
    intro cur hv h extra
    have h0 : ¬ cur.toDayNumber < ref.toDayNumber := by push_cast at h; omega
    rw [Nat.zero_add, rollForward_of_not_lt cycle ref extra cur h0,
      rollForward_of_not_lt cycle ref 0 cur h0]
  | succ fuel ih =>
    intro cur hv h extra
    have hstep : fuel + 1 + extra = (fuel + extra) + 1 := by omega
    rw [hstep, rollForward, rollForward]
    by_cases hlt : cur.toDayNumber < ref.toDayNumber
    · rw [if_pos hlt, if_pos hlt]
      have hadv := advanceCycle_spec cycle cur hv
      exact ih (advanceCycle cycle cur) hadv.2 (by push_cast at h ⊢; omega) extra
    · rw [if_neg hlt, if_neg hlt]

/-- The per-record switch of `totalMonthlySpend` in `App`: convert a
per-cycle price into its monthly-equivalent amount. The `monthly` case and
the `default` case both leave the price unchanged. -/
def monthlyEquivalent (price : ℚ) (cycle : String) : ℚ :=
  if cycle = "yearly" then price / 12
  else if cycle = "quarterly" then price / 3
  else if cycle = "half-yearly" then price / 6
  else if cycle = "every-28-days" then price * (365 / 28) / 12
  else price

/-- A stored subscription record (`types.ts`). -/
structure Subscription where
  id : String
  name : String
  price : ℚ
  currency : String
  billingCycle : String
  category : String
  startDate : String
  paymentType : Option String
  paymentDetails : Option String
  notes : Option String
  active : Bool
deriving DecidableEq, Repr

/-- The per-record switch of the `Analytics` component, written there a
second time with the same cases. -/
def analyticsMonthlyCost (sub : Subscription) : ℚ :=
  if sub.billingCycle = "yearly" then sub.price / 12
  else if sub.billingCycle = "quarterly" then sub.price / 3
  else if sub.billingCycle = "half-yearly" then sub.price / 6
  else if sub.billingCycle = "every-28-days" then sub.price * (365 / 28) / 12
  else sub.price

/-- `totalMonthlySpend` in `App`: a reduce over all records that skips
inactive ones and adds the monthly-equivalent cost of each active one. -/
def totalMonthlySpend (subs : List Subscription) : ℚ :=
  subs.foldl
    (fun acc sub =>
      if !sub.active then acc
      else acc + monthlyEquivalent sub.price sub.billingCycle) 0

/-- The category list of `types.ts`, the keys of the `Analytics` totals
object. -/
def CATEGORIES : List String :=
  ["Entertainment", "Software", "Utilities", "Health & Fitness",
   "Mobile & Data", "Insurance", "Loan/EMI", "Education", "Finance",
   "Housing", "Other"]

/-- The key a record's cost is accumulated under in `Analytics`: its own
category when that is a known key, otherwise `Other`. -/
def bucketOf (cat : String) : String :=
  if cat ∈ CATEGORIES then cat else "Other"

/-- The per-category totals of `Analytics`: a fold over the active records
that adds each record's monthly-equivalent cost to its bucket. -/
def categoryTotals (subs : List Subscription) : String → ℚ :=
  (subs.filter fun s => s.active).foldl
    (fun acc sub => fun c =>
      if c = bucketOf sub.category then
        acc c + analyticsMonthlyCost sub
      else acc c)
    (fun _ => 0)

/-- An element of a parsed import payload: a JSON object whose fields may
each be absent. -/
structure RawEntry where
  id : Option String
  name : Option String
  price : Option ℚ
  currency : Option String
  billingCycle : Option String
  category : Option String
  startDate : Option String
  paymentType : Option String
  paymentDetails : Option String
  notes : Option String
  active : Option Bool
deriving DecidableEq, Repr

/-- The minimal per-element check of `handleImportFile`:
`p.name && p.price !== undefined` (a present empty-string name is falsy and
therefore also rejected). -/
def entryValid (p : RawEntry) : Bool :=
  (match p.name with
   | some s => !(s == "")
   | none => false) && p.price.isSome

/-- The result of `JSON.parse` on the imported file as seen by
`handleImportFile`: unparseable text, a non-array value, or an array of
entries. -/
inductive ImportPayload where
  | malformed : ImportPayload
  | notArray : ImportPayload
  | array : List RawEntry → ImportPayload
deriving DecidableEq

/-- `{...item, id: item.id || generateId()}`: keep a truthy id, replace a
missing or empty one by a freshly generated id. -/
def assignId (freshId : String) (p : RawEntry) : RawEntry :=
  { p with
    id := match p.id with
      | some s => if s = "" then some freshId else some s
      | none => some freshId }

/-- The sanitization map of `handleImportFile`; the id generator is passed
in as a function of the element index, one fresh id per element. -/
def sanitize (freshIds : Nat → String) (l : List RawEntry) : List RawEntry :=
  l.enum.map fun pr => assignId (freshIds pr.1) pr.2

/-- `handleImportFile` in `App`, acting on the stored list: an unparseable
or non-array payload, or an array with any element failing the minimal
check, leaves the stored list unchanged; otherwise the stored list is
replaced by the sanitized payload. -/
def handleImportFile (freshIds : Nat → String) (stored : List RawEntry)
    (payload : ImportPayload) : List RawEntry :=
  match payload with
  | .malformed => stored
  | .notArray => stored
  | .array l => if l.all entryValid then sanitize freshIds l else stored

/-- `handleUpdateSubscription` in `App`:
`prev.map(s => s.id === updatedSub.id ? updatedSub : s)`. -/
def handleUpdateSubscription (subs : List Subscription)
    (updatedSub : Subscription) : List Subscription :=
  subs.map fun s => if s.id = updatedSub.id then updatedSub else s

/-- C1: for every price and every recognized billing cycle, the
monthly-equivalent cost computed by the aggregation (`totalMonthlySpend`
in `App` and the per-category totals in `Analytics`) is exactly: the price
for `monthly`, price/12 for `yearly`, price/3 for `quarterly`, price/6 for
`half-yearly`, and price * (365/28) / 12 for `every-28-days` (with the
constant 365); in particular 1200 yearly is 100 per month. -/
theorem monthlyEquivalent_table :
    (∀ p : ℚ,
      monthlyEquivalent p "monthly" = p ∧
      monthlyEquivalent p "yearly" = p / 12 ∧
      monthlyEquivalent p "quarterly" = p / 3 ∧
      monthlyEquivalent p "half-yearly" = p / 6 ∧
      monthlyEquivalent p "every-28-days" = p * (365 / 28) / 12) ∧
    (∀ s : Subscription,
      analyticsMonthlyCost s = monthlyEquivalent s.price s.billingCycle) ∧
    monthlyEquivalent 1200 "yearly" = 100 := by
  refine ⟨fun p => ⟨?_, ?_, ?_, ?_, ?_⟩, fun s => rfl, by norm_num [monthlyEquivalent]⟩ <;>
    simp [monthlyEquivalent]

/-- C7: the monthly-equivalent computation is linear in the price: doubling
the price doubles the monthly-equivalent cost, for every cycle. -/
theorem monthlyEquivalent_linear (c : String) (p : ℚ) :
    monthlyEquivalent (2 * p) c = 2 * monthlyEquivalent p c := by
  unfold monthlyEquivalent
  split_ifs <;> ring

/-- Congruence of the roll-forward loop in the cycle-step function. -/
theorem rollForward_congr (c c' : String) (ref : Date)
    (h : ∀ dt : Date, advanceCycle c dt = advanceCycle c' dt) :
    ∀ (fuel : Nat) (cur : Date),
      rollForward c ref fuel cur = rollForward c' ref fuel cur := by
  intro fuel
  induction fuel with
  | zero => intro cur; rfl
  | succ fuel ih =>
    intro cur
    rw [rollForward, rollForward]
    by_cases hlt : cur.toDayNumber < ref.toDayNumber
    · rw [if_pos hlt, if_pos hlt, h cur]
      exact ih (advanceCycle c' cur)
    · rw [if_neg hlt, if_neg hlt]

/-- C6: a billing-cycle value outside the recognized enumeration is treated
exactly as `monthly` and never fails: the monthly-equivalent cost is the
price unchanged, the due-date cursor advances by one calendar month per
step, and the projected due date is that of a monthly cycle. -/
theorem unrecognizedCycle_fallback (c : String)
    (h : c ∉ (["monthly", "yearly", "quarterly", "half-yearly",
      "every-28-days"] : List String)) :
    (∀ p : ℚ, monthlyEquivalent p c = p) ∧
    (∀ dt : Date, advanceCycle c dt = addMonths dt 1) ∧
    (∀ start ref : Date,
      getNextDueDate start c ref = getNextDueDate start "monthly" ref) := by
  simp only [List.mem_cons, List.not_mem_nil, or_false, not_or] at h
  obtain ⟨h1, h2, h3, h4, h5⟩ := h
  have hadv : ∀ dt : Date, advanceCycle c dt = addMonths dt 1 := by
    intro dt
    unfold advanceCycle
    rw [if_neg h1, if_neg h2, if_neg h3, if_neg h4, if_neg h5]
  refine ⟨?_, hadv, ?_⟩
  · intro p
    unfold monthlyEquivalent
    rw [if_neg h2, if_neg h3, if_neg h4, if_neg h5]
  · intro start ref
    unfold getNextDueDate
    by_cases hlt : ref.toDayNumber < start.toDayNumber
    · rw [if_pos hlt, if_pos hlt]
    · rw [if_neg hlt, if_neg hlt]
      refine rollForward_congr c "monthly" ref ?_ (dueFuel start ref) start
      intro dt
      rw [hadv dt]
      unfold advanceCycle
      rw [if_pos rfl]

/-- C6 witness: the unrecognized cycle `weekly` at a concrete price and
date. -/
theorem unrecognizedCycle_fallback_witness :
    ("weekly" ∉ (["monthly", "yearly", "quarterly", "half-yearly",
      "every-28-days"] : List String)) ∧
    monthlyEquivalent 500 "weekly" = 500 ∧
    advanceCycle "weekly" ⟨2024, 1, 31⟩ = addMonths ⟨2024, 1, 31⟩ 1 ∧
    getNextDueDate ⟨2023, 1, 15⟩ "weekly" ⟨2023, 6, 20⟩ =
      getNextDueDate ⟨2023, 1, 15⟩ "monthly" ⟨2023, 6, 20⟩ :=
  ⟨by decide,
    (unrecognizedCycle_fallback "weekly" (by decide)).1 500,
    (unrecognizedCycle_fallback "weekly" (by decide)).2.1 ⟨2024, 1, 31⟩,
    (unrecognizedCycle_fallback "weekly" (by decide)).2.2 ⟨2023, 1, 15⟩ ⟨2023, 6, 20⟩⟩

/-- C2: with both dates normalized to midnight, the projected next due date
is the start date itself whenever the start date is strictly after the
reference date, and otherwise is never earlier than the reference date (the
cursor stops as soon as it is at or past the reference date). -/
theorem getNextDueDate_spec (start ref : Date) (cycle : String)
    (hs : start.Valid) :
    (ref.toDayNumber < start.toDayNumber →
      getNextDueDate start cycle ref = start) ∧
    (start.toDayNumber ≤ ref.toDayNumber →
      ref.toDayNumber ≤ (getNextDueDate start cycle ref).toDayNumber) := by
  constructor
  · intro h
    unfold getNextDueDate
    rw [if_pos h]
  · intro h
    unfold getNextDueDate
    rw [if_neg (by omega)]
    refine (rollForward_ge cycle ref (dueFuel start ref) start hs ?_).1
    unfold dueFuel
    omega

/-- C2 witness: a monthly subscription started 2023-01-15 relative to
2023-06-20. -/
theorem getNextDueDate_spec_witness :
    (Date.mk 2023 1 15).Valid ∧
    (Date.mk 2023 1 15).toDayNumber ≤ (Date.mk 2023 6 20).toDayNumber ∧
    (Date.mk 2023 6 20).toDayNumber ≤
      (getNextDueDate ⟨2023, 1, 15⟩ "monthly" ⟨2023, 6, 20⟩).toDayNumber :=
  ⟨by decide, by decide,
    (getNextDueDate_spec ⟨2023, 1, 15⟩ ⟨2023, 6, 20⟩ "monthly" (by decide)).2
      (by decide)⟩

/-- C3: `isDueSoon` returns true exactly when the day difference between
the projected next due date (under the same roll-forward rules) and the
reference date is between 0 and 7 inclusive: a due date equal to the
reference date counts as due soon, one more than 7 days out does not. -/
theorem isDueSoon_spec (start ref : Date) (cycle : String) :
    isDueSoon start cycle ref = true ↔
      (0 ≤ (getNextDueDate start cycle ref).toDayNumber - ref.toDayNumber ∧
       (getNextDueDate start cycle ref).toDayNumber - ref.toDayNumber ≤ 7) := by
  have hnext :
      (if start.toDayNumber < ref.toDayNumber then
        rollForward cycle ref (dueFuel start ref) start
      else start) = getNextDueDate start cycle ref := by
    unfold getNextDueDate
    rcases lt_trichotomy start.toDayNumber ref.toDayNumber with h | h | h
    · rw [if_pos h, if_neg (by omega)]
    · rw [if_neg (by omega), if_neg (by omega)]
      have h0 : dueFuel start ref = 0 := by unfold dueFuel; omega
      rw [h0]
      rfl
    · rw [if_neg (by omega), if_pos h]
  simp only [isDueSoon]
  rw [hnext]
  simp only [Bool.and_eq_true, decide_eq_true_eq]
  constructor
  · rintro ⟨a, b⟩
    exact ⟨b, a⟩
  · rintro ⟨a, b⟩
    exact ⟨b, a⟩

/-- C4 counterexample: for a 28-day cycle started 2023-12-01 with reference
date 2024-01-01 the code does not return 2023-12-29 (Dec 29 is still
before the reference date, so the loop keeps rolling). -/
theorem getNextDueDate_dec2023_28days_ne :
    getNextDueDate ⟨2023, 12, 1⟩ "every-28-days" ⟨2024, 1, 1⟩ ≠
      Date.mk 2023 12 29 := by decide

/-- C4 amended: for a 28-day cycle started 2023-12-01 with reference date
2024-01-01, the next due date is the first multiple-of-28-days increment
from Dec 1 that is on or after Jan 1, which is January 26, 2024 (Dec 29 is
before Jan 1, so one more 28-day step is taken). -/
theorem getNextDueDate_dec2023_28days :
    getNextDueDate ⟨2023, 12, 1⟩ "every-28-days" ⟨2024, 1, 1⟩ =
      Date.mk 2024 1 26 := by decide

/-- C5: every cycle increment strictly advances a valid cursor date, so
the roll-forward loop of `getNextDueDate`/`isDueSoon` reaches a date at or
past the reference date in finitely many steps: the day distance between
start and reference is an iteration budget beyond which nothing changes,
and the loop result is at or past the reference date. -/
theorem rollForward_termination (cycle : String) (start ref : Date)
    (hs : start.Valid) (h : start.toDayNumber ≤ ref.toDayNumber) :
    (∀ dt : Date, dt.Valid → dt.toDayNumber < (advanceCycle cycle dt).toDayNumber) ∧
    (∀ extra : Nat,
      rollForward cycle ref (dueFuel start ref + extra) start =
        rollForward cycle ref (dueFuel start ref) start) ∧
    ref.toDayNumber ≤ (rollForward cycle ref (dueFuel start ref) start).toDayNumber := by
  have hfuel : ref.toDayNumber ≤ start.toDayNumber + (dueFuel start ref : Int) := by
    unfold dueFuel
    omega
  exact ⟨fun dt hv => (advanceCycle_spec cycle dt hv).1,
    rollForward_stable cycle ref (dueFuel start ref) start hs hfuel,
    (rollForward_ge cycle ref (dueFuel start ref) start hs hfuel).1⟩

/-- C5 witness: the 28-day loop from 2023-12-01 to reference 2024-01-01,
with 5 iterations of extra budget. -/
theorem rollForward_termination_witness :
    (Date.mk 2023 12 1).Valid ∧
    (Date.mk 2023 12 1).toDayNumber ≤ (Date.mk 2024 1 1).toDayNumber ∧
    rollForward "every-28-days" ⟨2024, 1, 1⟩
        (dueFuel ⟨2023, 12, 1⟩ ⟨2024, 1, 1⟩ + 5) ⟨2023, 12, 1⟩ =
      rollForward "every-28-days" ⟨2024, 1, 1⟩
        (dueFuel ⟨2023, 12, 1⟩ ⟨2024, 1, 1⟩) ⟨2023, 12, 1⟩ ∧
    (Date.mk 2024 1 1).toDayNumber ≤
      (rollForward "every-28-days" ⟨2024, 1, 1⟩
        (dueFuel ⟨2023, 12, 1⟩ ⟨2024, 1, 1⟩) ⟨2023, 12, 1⟩).toDayNumber :=
  ⟨by decide, by decide,
    (rollForward_termination "every-28-days" ⟨2023, 12, 1⟩ ⟨2024, 1, 1⟩
      (by decide) (by decide)).2.1 5,
    (rollForward_termination "every-28-days" ⟨2023, 12, 1⟩ ⟨2024, 1, 1⟩
      (by decide) (by decide)).2.2⟩

theorem totalMonthlySpend_foldl (l : List Subscription) : ∀ a : ℚ,
    l.foldl
      (fun acc sub =>
        if !sub.active then acc
        else acc + monthlyEquivalent sub.price sub.billingCycle) a =
      a + ((l.filter fun s => s.active).map fun s =>
        monthlyEquivalent s.price s.billingCycle).sum := by
  induction l with
  | nil => intro a; simp
  | cons s l ih =>
    intro a
    rcases h : s.active
    · simp only [List.foldl_cons]
      rw [List.filter_cons_of_neg (by simp [h])]
      have hred : (if (!s.active) = true then a
          else a + monthlyEquivalent s.price s.billingCycle) = a := by
        simp [h]
      simp only [hred]
      exact ih a
    · simp only [List.foldl_cons]
      rw [List.filter_cons_of_pos (by simp [h]), List.map_cons, List.sum_cons]
      have hred : (if (!s.active) = true then a
          else a + monthlyEquivalent s.price s.billingCycle) =
          a + monthlyEquivalent s.price s.billingCycle := by
        simp [h]
      simp only [hred]
      rw [ih]
      ring

theorem categoryTotals_foldl (l : List Subscription) :
    ∀ (acc : String → ℚ) (cat : String),
    (l.foldl
      (fun acc sub => fun c =>
        if c = bucketOf sub.category then acc c + analyticsMonthlyCost sub
        else acc c) acc) cat =
      acc cat + ((l.filter fun s => bucketOf s.category = cat).map
        analyticsMonthlyCost).sum := by
  induction l with
  | nil => intro acc cat; simp
  | cons s l ih =>
    intro acc cat
    rw [List.foldl_cons, ih]
    show (if cat = bucketOf s.category then acc cat + analyticsMonthlyCost s
      else acc cat) + _ = _
    by_cases h : bucketOf s.category = cat
    · rw [List.filter_cons_of_pos (by simp [h]), List.map_cons, List.sum_cons]
      rw [if_pos h.symm]
      ring
    · rw [List.filter_cons_of_neg (by simp [h])]
      rw [if_neg fun hc => h hc.symm]

/-- C8: the total monthly spend and each per-category analytics total are
the sum of monthly-equivalent costs over exactly the active records; an
inactive record contributes nothing to either aggregate (while the stored
list itself is not modified by either aggregation, which are read-only
folds). -/
theorem aggregation_active_only (subs : List Subscription) :
    (totalMonthlySpend subs =
      ((subs.filter fun s => s.active).map fun s =>
        monthlyEquivalent s.price s.billingCycle).sum) ∧
    (∀ cat : String,
      categoryTotals subs cat =
        (((subs.filter fun s => s.active).filter fun s =>
          bucketOf s.category = cat).map fun s =>
          monthlyEquivalent s.price s.billingCycle).sum) ∧
    (∀ s : Subscription, s.active = false →
      totalMonthlySpend (s :: subs) = totalMonthlySpend subs ∧
      ∀ cat : String, categoryTotals (s :: subs) cat = categoryTotals subs cat) := by
  refine ⟨?_, ?_, ?_⟩
  · rw [totalMonthlySpend, totalMonthlySpend_foldl subs 0, zero_add]
  · intro cat
    rw [categoryTotals, categoryTotals_foldl _ _ cat, zero_add]
    exact congrArg List.sum (List.map_congr_left fun s _ => rfl)
  · intro s hs
    constructor
    · rw [totalMonthlySpend, totalMonthlySpend, List.foldl_cons]
      simp [hs]
    · intro cat
      rw [categoryTotals, categoryTotals,
        List.filter_cons_of_neg (by simp [hs])]

/-- C8 witness: an inactive record contributes nothing on a concrete
list. -/
theorem aggregation_active_only_witness :
    (Subscription.mk "9" "Gym" 500 "INR" "monthly" "Health & Fitness"
        "2023-01-01" none none none false).active = false ∧
    totalMonthlySpend
        [Subscription.mk "9" "Gym" 500 "INR" "monthly" "Health & Fitness"
          "2023-01-01" none none none false] =
      totalMonthlySpend [] :=
  ⟨rfl,
    ((aggregation_active_only []).2.2
      (Subscription.mk "9" "Gym" 500 "INR" "monthly" "Health & Fitness"
        "2023-01-01" none none none false) rfl).1⟩

/-- C9: an unparseable payload, a non-array payload, or an array with any
element lacking a (non-empty) name or a defined price leaves the stored
list completely unchanged; if every element passes the minimal check, the
stored list is replaced in its entirety by the payload, each element keeping
all its fields, with a fresh id assigned to each entry whose id is missing
(or empty) and every truthy id kept. -/
theorem handleImportFile_spec (freshIds : Nat → String)
    (stored : List RawEntry) :
    handleImportFile freshIds stored .malformed = stored ∧
    handleImportFile freshIds stored .notArray = stored ∧
    (∀ l : List RawEntry, l.all entryValid = false →
      handleImportFile freshIds stored (.array l) = stored) ∧
    (∀ l : List RawEntry, l.all entryValid = true →
      handleImportFile freshIds stored (.array l) = sanitize freshIds l ∧
      (sanitize freshIds l).length = l.length ∧
      (∀ i : Nat, (sanitize freshIds l)[i]? =
        (l[i]?).map (assignId (freshIds i)))) ∧
    (∀ (f : String) (p : RawEntry),
      (assignId f p).name = p.name ∧
      (assignId f p).price = p.price ∧
      (assignId f p).currency = p.currency ∧
      (assignId f p).billingCycle = p.billingCycle ∧
      (assignId f p).category = p.category ∧
      (assignId f p).startDate = p.startDate ∧
      (assignId f p).paymentType = p.paymentType ∧
      (assignId f p).paymentDetails = p.paymentDetails ∧
      (assignId f p).notes = p.notes ∧
      (assignId f p).active = p.active ∧
      (p.id = none → (assignId f p).id = some f) ∧
      (∀ s : String, p.id = some s → s ≠ "" → (assignId f p).id = some s)) := by
  refine ⟨rfl, rfl, ?_, ?_, ?_⟩
  · intro l h
    simp [handleImportFile, h]
  · intro l h
    refine ⟨by simp [handleImportFile, h], by simp [sanitize], ?_⟩
    intro i
    simp only [sanitize, List.getElem?_map, List.getElem?_enum]
    cases l[i]? <;> rfl
  · intro f p
    refine ⟨rfl, rfl, rfl, rfl, rfl, rfl, rfl, rfl, rfl, rfl, ?_, ?_⟩
    · intro h
      simp [assignId, h]
    · intro s hs hne
      simp [assignId, hs, hne]

/-- C9 witness: a valid one-element payload is imported with a fresh id,
an invalid one is rejected whole. -/
theorem handleImportFile_spec_witness :
    ([RawEntry.mk none (some "Netflix") (some 649) none none none none
        none none none (some true)].all entryValid = true) ∧
    handleImportFile (fun _ => "gen0")
        [RawEntry.mk (some "old") (some "Old") (some 1) none none none none
          none none none none]
        (.array [RawEntry.mk none (some "Netflix") (some 649) none none none
          none none none none (some true)]) =
      sanitize (fun _ => "gen0")
        [RawEntry.mk none (some "Netflix") (some 649) none none none none
          none none none (some true)] ∧
    ([RawEntry.mk none (some "") (some 649) none none none none none none
        none (some true)].all entryValid = false) ∧
    handleImportFile (fun _ => "gen0")
        [RawEntry.mk (some "old") (some "Old") (some 1) none none none none
          none none none none]
        (.array [RawEntry.mk none (some "") (some 649) none none none none
          none none none (some true)]) =
      [RawEntry.mk (some "old") (some "Old") (some 1) none none none none
        none none none none] :=
  ⟨by decide,
    (((handleImportFile_spec (fun _ => "gen0")
        [RawEntry.mk (some "old") (some "Old") (some 1) none none none none
          none none none none]).2.2.2.1
      [RawEntry.mk none (some "Netflix") (some 649) none none none none
        none none none (some true)]) (by decide)).1,
    by decide,
    ((handleImportFile_spec (fun _ => "gen0")
        [RawEntry.mk (some "old") (some "Old") (some 1) none none none none
          none none none none]).2.2.1
      [RawEntry.mk none (some "") (some 649) none none none none none none
        none (some true)]) (by decide)⟩

/-- C10: updating a subscription replaces exactly the records whose id
matches the updated record's id, leaves every other record and the order
and length of the list unchanged, and leaves the whole list unchanged when
no record has that id. -/
theorem handleUpdateSubscription_spec (subs : List Subscription)
    (u : Subscription) :
    (handleUpdateSubscription subs u).length = subs.length ∧
    (∀ i : Nat, (handleUpdateSubscription subs u)[i]? =
      (subs[i]?).map fun s => if s.id = u.id then u else s) ∧
    ((∀ s ∈ subs, s.id ≠ u.id) → handleUpdateSubscription subs u = subs) := by
  refine ⟨List.length_map _ _, ?_, ?_⟩
  · intro i
    simp [handleUpdateSubscription]
  · intro h
    unfold handleUpdateSubscription
    have hcongr : subs.map (fun s => if s.id = u.id then u else s) = subs.map id :=
      List.map_congr_left fun s hs => by rw [if_neg (h s hs)]; rfl
    rw [hcongr, List.map_id]

/-- C10 witness: a two-element list where only the matching id is
replaced, and an update whose id matches nothing. -/
theorem handleUpdateSubscription_spec_witness :
    handleUpdateSubscription
        [Subscription.mk "1" "Netflix" 649 "INR" "monthly" "Entertainment"
          "2023-01-15" none none none true,
         Subscription.mk "2" "Spotify" 119 "INR" "monthly" "Entertainment"
          "2023-03-10" none none none true]
        (Subscription.mk "2" "Spotify Duo" 149 "INR" "monthly"
          "Entertainment" "2023-03-10" none none none true) =
      [Subscription.mk "1" "Netflix" 649 "INR" "monthly" "Entertainment"
        "2023-01-15" none none none true,
       Subscription.mk "2" "Spotify Duo" 149 "INR" "monthly" "Entertainment"
        "2023-03-10" none none none true] ∧
    (∀ s ∈ [Subscription.mk "1" "Netflix" 649 "INR" "monthly"
        "Entertainment" "2023-01-15" none none none true],
      s.id ≠ "3") ∧
    handleUpdateSubscription
        [Subscription.mk "1" "Netflix" 649 "INR" "monthly" "Entertainment"
          "2023-01-15" none none none true]
        (Subscription.mk "3" "New" 10 "INR" "monthly" "Other" "2024-01-01"
          none none none true) =
      [Subscription.mk "1" "Netflix" 649 "INR" "monthly" "Entertainment"
        "2023-01-15" none none none true] :=
  ⟨by decide,
    by decide,
    (handleUpdateSubscription_spec
      [Subscription.mk "1" "Netflix" 649 "INR" "monthly" "Entertainment"
        "2023-01-15" none none none true]
      (Subscription.mk "3" "New" 10 "INR" "monthly" "Other" "2024-01-01"
        none none none true)).2.2 (by decide)⟩

end BillTrack
